import Mathlib

/-
Verification of senteval/tools/classifier.py and senteval/tools/validation.py.

Shallow embedding conventions:
* numpy/torch arrays become Lean lists; machine floats become ℚ (the claims
  under study concern control flow, counting and comparisons, not rounding);
* a trained model is abstracted to its logit function `α → List ℚ` where a
  claim needs logits, or to an arbitrary type `M` where only the control flow
  of `fit` matters;
* the stochastic parts (np.random.permutation, SGD updates) are supplied as
  explicit parameters (`perm`, `trainepoch`), so every definition is a pure
  function of its inputs;
* fallible Python code (assert failures, numpy type errors, NameError) is
  modelled with `Except String` / `Option`.
-/

namespace SentEval

/-- Models the batching loops `for i in range(0, len(X), batch_size): X[i:i+bs]`
used by score, predict and predict_proba in classifier.py: the list of
contiguous slices of length `bs` (last one possibly shorter), in order.
For `bs = 0` Python rejects the range step; this model then yields chunks of
one element (all claims use `bs ≥ 1`). -/
def chunkList (bs : Nat) : List α → List (List α)
  | [] => []
  | x :: xs => (x :: xs.take (bs - 1)) :: chunkList bs (xs.drop (bs - 1))
  termination_by l => l.length
  decreasing_by simp only [List.length_drop, List.length_cons]; omega

/-- Models `np.argmax` on a one-dimensional array, and equally
`output.data.max(1)[1]` on one row of logits: the index of the FIRST
occurrence of the maximum value (numpy documents first-occurrence
tie-breaking). numpy raises on an empty array; this model returns 0 there. -/
def np_argmax : List ℚ → Nat
  | [] => 0
  | x :: xs => if x < xs.getD (np_argmax xs) x then np_argmax xs + 1 else 0

theorem chunkList_flatten (bs : Nat) : ∀ l : List α, (chunkList bs l).flatten = l
  | [] => by simp [chunkList]
  | x :: xs => by
      rw [chunkList]
      have ih := chunkList_flatten bs (xs.drop (bs - 1))
      simp [ih, List.take_append_drop]
  termination_by l => l.length
  decreasing_by simp only [List.length_drop, List.length_cons]; omega

theorem getD_default_irrel : ∀ (l : List ℚ) (n : Nat), n < l.length →
    ∀ (d1 d2 : ℚ), l.getD n d1 = l.getD n d2
  | [], n, h, _, _ => by simp at h
  | x :: xs, 0, _, d1, d2 => rfl
  | x :: xs, n + 1, h, d1, d2 => by
      simp only [List.getD_cons_succ]
      exact getD_default_irrel xs n (by simpa using h) d1 d2

theorem np_argmax_lt_length : ∀ (l : List ℚ), l ≠ [] → np_argmax l < l.length := by
  intro l
  induction l with
  | nil => intro h; exact absurd rfl h
  | cons x xs ih =>
    intro _
    rw [np_argmax]
    split
    · rcases List.eq_nil_or_concat xs with h | _
      · subst h; simp [np_argmax] at *
      · have hxs : xs ≠ [] := by
          intro hc
          subst hc
          simp [np_argmax] at *
        have := ih hxs
        simp only [List.length_cons]
        omega
    · simp

theorem np_argmax_is_max : ∀ (l : List ℚ) (j : Nat), j < l.length →
    l.getD j 0 ≤ l.getD (np_argmax l) 0 := by
  intro l
  induction l with
  | nil => intro j h; simp at h
  | cons x xs ih =>
    intro j hj
    by_cases hxs : xs = []
    · subst hxs
      simp only [List.length_cons, List.length_nil] at hj
      interval_cases j
      · simp [np_argmax]
    · have hr : np_argmax xs < xs.length := np_argmax_lt_length xs hxs
      have hdef : xs.getD (np_argmax xs) x = xs.getD (np_argmax xs) 0 :=
        getD_default_irrel xs (np_argmax xs) hr x 0
      rw [np_argmax]
      by_cases hcmp : x < xs.getD (np_argmax xs) x
      · rw [if_pos hcmp]
        rw [hdef] at hcmp
        cases j with
        | zero => simpa using le_of_lt hcmp
        | succ j' =>
            simp only [List.getD_cons_succ]
            exact ih j' (by simpa using hj)
      · rw [if_neg hcmp]
        rw [hdef] at hcmp
        push_neg at hcmp
        cases j with
        | zero => simp
        | succ j' =>
            simp only [List.getD_cons_succ, List.getD_cons_zero]
            exact le_trans (ih j' (by simpa using hj)) hcmp

theorem np_argmax_first : ∀ (l : List ℚ) (j : Nat), j < np_argmax l →
    l.getD j 0 < l.getD (np_argmax l) 0 := by
  intro l
  induction l with
  | nil => intro j h; simp [np_argmax] at h
  | cons x xs ih =>
    intro j hj
    by_cases hxs : xs = []
    · subst hxs; simp [np_argmax] at hj
    · have hr : np_argmax xs < xs.length := np_argmax_lt_length xs hxs
      have hdef : xs.getD (np_argmax xs) x = xs.getD (np_argmax xs) 0 :=
        getD_default_irrel xs (np_argmax xs) hr x 0
      rw [np_argmax] at hj ⊢
      by_cases hcmp : x < xs.getD (np_argmax xs) x
      · rw [if_pos hcmp] at hj ⊢
        rw [hdef] at hcmp
        cases j with
        | zero => simpa using hcmp
        | succ j' =>
            simp only [List.getD_cons_succ]
            exact ih j' (by omega)
      · rw [if_neg hcmp] at hj
        simp at hj

/-- Truthiness of the optional `validation_split` argument as Python's
`assert validation_split or validation_data` sees it: `None` is falsy and so is
the float `0.0`; every other float is truthy. -/
def truthySplit : Option ℚ → Bool
  | none => false
  | some q => decide (q ≠ 0)

/-- Models PyTorchClassifier.prepare_split (classifier.py lines 38-49).
`perm` stands for the draw of `np.random.permutation(len(X))`, passed in
explicitly.  The body first runs `assert validation_split or validation_data`
(Python truthiness: a supplied `(devX, devy)` tuple is always truthy, a
supplied split fraction is truthy unless it is 0.0); on assertion failure the
result is an error.  Then `if validation_data is not None` the input is
returned unsplit together with the supplied held-out pair; otherwise the first
`int(validation_split * len(X))` permuted indices become the validation set
and the remaining permuted indices the training set.  Returns
(trainX, trainy, devX, devy). -/
def prepare_split [Inhabited α] [Inhabited β] (X : List α) (y : List β)
    (validation_data : Option (List α × List β)) (validation_split : Option ℚ)
    (perm : List Nat) : Except String (List α × List β × List α × List β) :=
  if truthySplit validation_split || validation_data.isSome then
    match validation_data with
    | some vd => Except.ok (X, y, vd.1, vd.2)
    | none =>
        let frac := validation_split.getD 0
        let cut := (frac * (X.length : ℚ)).floor.toNat
        let devidx := perm.take cut
        let trainidx := perm.drop cut
        Except.ok (trainidx.map (fun i => X.getD i default),
                   trainidx.map (fun i => y.getD i default),
                   devidx.map (fun i => X.getD i default),
                   devidx.map (fun i => y.getD i default))
  else Except.error "AssertionError: validation_split or validation_data"

/-- Whether an Except result is a success (no exception raised). -/
def exceptIsOk : Except String γ → Bool
  | Except.ok _ => true
  | Except.error _ => false

/-- Number of correct predictions in one batch of score (classifier.py
lines 112-116): `pred = output.data.max(1)[1]` row-wise on the batch, then
`pred.long().eq(ybatch.data.long()).sum().item()`.  The model is abstracted to
its logit function. -/
def batchCorrect (model : α → List ℚ) (bX : List α) (bY : List Nat) : Nat :=
  (bX.zip bY).countP (fun p => decide (np_argmax (model p.1) = p.2))

/-- Models PyTorchClassifier.score (classifier.py lines 106-118): iterate over
the data in fixed batch order, accumulate the number of argmax-correct
predictions, and return `1.0 * correct / len(devX)`.  (Python raises
ZeroDivisionError on empty devX; in ℚ the quotient is then 0.) -/
def score (model : α → List ℚ) (bs : Nat) (devX : List α) (devy : List Nat) : ℚ :=
  (((((chunkList bs devX).zip (chunkList bs devy)).foldl
      (fun acc p => acc + batchCorrect model p.1 p.2) 0 : Nat) : ℚ)) / (devX.length : ℚ)

/-- Models PyTorchClassifier.predict (classifier.py lines 120-130): per batch,
the row-wise `output.data.max(1)[1]` indices are appended to the accumulated
predictions (`np.append` keeps input order).  The final `np.vstack` only
reshapes the flat float vector into a column; this model keeps the flat list
of predicted class indices. -/
def predict (model : α → List ℚ) (bs : Nat) (devX : List α) : List Nat :=
  (chunkList bs devX).foldl (fun acc b => acc ++ b.map (fun x => np_argmax (model x))) []

/-- The loop of predict_proba (classifier.py lines 135-142).  First batch:
`if not probas` is True for the initial empty list, so `probas = vals`.  Any
later batch: `not probas` is evaluated with `probas` a numpy array (ValueError
for arrays of more than one element), and the else branch calls
`np.concatenate(probas, vals, axis=0)`, passing `vals` in the position of the
`axis` argument (TypeError).  Either way the call aborts, modelled as an
error result; only a single-batch input ever returns. -/
def ppLoop (model : α → List ℚ) (softmaxRow : List ℚ → List ℚ) :
    List (List α) → List (List ℚ) → Except String (List (List ℚ))
  | [], probas => Except.ok probas
  | b :: rest, probas =>
      let vals := b.map (fun x => softmaxRow (model x))
      if probas.isEmpty then ppLoop model softmaxRow rest vals
      else Except.error "TypeError: np.concatenate(probas, vals, axis=0)"

/-- Models PyTorchClassifier.predict_proba (classifier.py lines 132-143), with
softmax abstracted to a row function applied to each example's logits. -/
def predict_proba (model : α → List ℚ) (softmaxRow : List ℚ → List ℚ)
    (bs : Nat) (devX : List α) : Except String (List (List ℚ)) :=
  ppLoop model softmaxRow (chunkList bs devX) []

/-- Modelled from the spec: the intended accumulation of predict_proba,
"batched inference returning per-class probabilities via softmax over logits",
with the results of every batch concatenated in input order (spec §4.1 and the
§9 design note demanding straightforward accumulation across all batches). -/
def predict_proba_spec (model : α → List ℚ) (softmaxRow : List ℚ → List ℚ)
    (bs : Nat) (devX : List α) : List (List ℚ) :=
  ((chunkList bs devX).map (fun b => b.map (fun x => softmaxRow (model x)))).flatten

/-- Models validation.py line 94: `optreg = regs[np.argmax(scores)]` in
InnerKFoldClassifier.run. -/
def innerKFold_optreg (regs scoreTable : List ℚ) : ℚ :=
  regs.getD (np_argmax scoreTable) 0

/-- Models validation.py line 175: `optreg = regs[np.argmax(scores)]` in
KFoldClassifier.run. -/
def kfold_optreg (regs scoreTable : List ℚ) : ℚ :=
  regs.getD (np_argmax scoreTable) 0

/-- Models validation.py line 250: `optreg = regs[np.argmax(scores)]` in
SplitClassifier.run. -/
def split_optreg (regs scoreTable : List ℚ) : ℚ :=
  regs.getD (np_argmax scoreTable) 0

/-- The pytorch-side regularization candidate list
`[10**t for t in range(-5, -1)]` shared by all three strategies. -/
def regs_pytorch : List ℚ := [1/100000, 1/10000, 1/1000, 1/100]

/-- The hyperparameters of PyTorchClassifier.fit that its loop reads:
self.max_epoch, self.epoch_size, self.tenacity, and the early_stop flag
(MLP defaults: max_epoch 200, epoch_size 4, tenacity 5, early_stop True). -/
structure FitConfig where
  maxEpoch : Nat
  epochSize : Nat
  tenacity : Nat
  earlyStop : Bool

/-- The mutable state of one PyTorchClassifier.fit call, after the
preparation lines (classifier.py lines 60-63) and during the training loop:
self.nepoch, bestaccuracy, bestmodel (None until first assigned — Python
would raise NameError at `self.model = bestmodel` if it were never bound),
stop_train, early_stop_count, and the live self.model. -/
structure FitState (M : Type) where
  nepoch : Nat
  bestaccuracy : ℚ
  bestmodel : Option M
  stop_train : Bool
  early_stop_count : Nat
  model : M

/-- The state right before the training loop of fit:
`self.nepoch = 0; bestaccuracy = -1; stop_train = False; early_stop_count = 0`
with the live model still the freshly constructed one. -/
def initFitState (m0 : M) : FitState M :=
  { nepoch := 0, bestaccuracy := -1, bestmodel := none,
    stop_train := false, early_stop_count := 0, model := m0 }

/-- One iteration of the fit training loop (classifier.py lines 70-80):
`self.trainepoch(...)` (which advances self.nepoch by epoch_size and updates
the live model — abstracted as `trainepoch`, a function of the nepoch value at
call time), then `accuracy = self.score(devX, devy)` (abstracted as `scoreFn`
of the updated model), then
`if accuracy > bestaccuracy:` snapshot model and record accuracy,
`elif early_stop:` set stop_train when early_stop_count already reached
tenacity, and increment early_stop_count afterwards. -/
def fitBody (cfg : FitConfig) (trainepoch : Nat → M → M) (scoreFn : M → ℚ)
    (s : FitState M) : FitState M :=
  let m' := trainepoch s.nepoch s.model
  let acc := scoreFn m'
  if s.bestaccuracy < acc then
    { nepoch := s.nepoch + cfg.epochSize, bestaccuracy := acc, bestmodel := some m',
      stop_train := s.stop_train, early_stop_count := s.early_stop_count, model := m' }
  else if cfg.earlyStop then
    { nepoch := s.nepoch + cfg.epochSize, bestaccuracy := s.bestaccuracy,
      bestmodel := s.bestmodel,
      stop_train := s.stop_train || decide (cfg.tenacity ≤ s.early_stop_count),
      early_stop_count := s.early_stop_count + 1, model := m' }
  else
    { nepoch := s.nepoch + cfg.epochSize, bestaccuracy := s.bestaccuracy,
      bestmodel := s.bestmodel, stop_train := s.stop_train,
      early_stop_count := s.early_stop_count, model := m' }

/-- The fit training loop `while not stop_train and self.nepoch <= self.max_epoch`,
run with explicit fuel.  With epoch_size ≥ 1 a fuel of max_epoch + 1 always
suffices (fitLoop_finished below); with epoch_size = 0 the Python loop would
not terminate unless early stopping fires. -/
def fitLoop (cfg : FitConfig) (trainepoch : Nat → M → M) (scoreFn : M → ℚ) :
    Nat → FitState M → FitState M
  | 0, s => s
  | fuel + 1, s =>
      if s.stop_train = false ∧ s.nepoch ≤ cfg.maxEpoch then
        fitLoop cfg trainepoch scoreFn fuel (fitBody cfg trainepoch scoreFn s)
      else s

/-- The state at the end of the fit training loop. -/
def fitFinal (cfg : FitConfig) (trainepoch : Nat → M → M) (scoreFn : M → ℚ)
    (m0 : M) : FitState M :=
  fitLoop cfg trainepoch scoreFn (cfg.maxEpoch + 1) (initFitState m0)

/-- Models the tail of fit (classifier.py lines 80-81):
`self.model = bestmodel; return bestaccuracy`.  The restored live model is
`none` exactly when no snapshot was ever taken (Python NameError). -/
def fit (cfg : FitConfig) (trainepoch : Nat → M → M) (scoreFn : M → ℚ)
    (m0 : M) : Option M × ℚ :=
  ((fitFinal cfg trainepoch scoreFn m0).bestmodel,
   (fitFinal cfg trainepoch scoreFn m0).bestaccuracy)

/-- The state after exactly `k` unconditional iterations of the loop body,
used to describe the loop's trajectory. -/
def fitSteps (cfg : FitConfig) (trainepoch : Nat → M → M) (scoreFn : M → ℚ)
    (m0 : M) : Nat → FitState M
  | 0 => initFitState m0
  | k + 1 => fitBody cfg trainepoch scoreFn (fitSteps cfg trainepoch scoreFn m0 k)

/-- The live model after `k` loop iterations when epoch_size = 1 (so the
trainepoch call of iteration k+1 sees nepoch = k). -/
def modelAt (trainepoch : Nat → M → M) (m0 : M) : Nat → M
  | 0 => m0
  | k + 1 => trainepoch k (modelAt trainepoch m0 k)

/-- The validation accuracy observed at (1-indexed) epoch `k` of the fit loop
when epoch_size = 1: the score of the live model after `k` training epochs. -/
def accAt (trainepoch : Nat → M → M) (scoreFn : M → ℚ) (m0 : M) (k : Nat) : ℚ :=
  scoreFn (modelAt trainepoch m0 k)

/-- The fit loop state with Python's object identity made explicit: `heap` is
a store of model objects, `live` the cell self.model refers to (cell 0, never
reallocated during the loop — trainepoch's optimizer.step() mutates it in
place), and `bestref` the cell bestmodel refers to.  `copy.deepcopy`
(classifier.py line 75) allocates a FRESH cell holding the current weight
values, so a snapshot can only stay intact if later in-place writes to the
live cell never reach it. -/
structure HeapFitState (M : Type) where
  heap : List M
  live : Nat
  bestref : Option Nat
  bestaccuracy : ℚ
  stop_train : Bool
  early_stop_count : Nat
  nepoch : Nat

/-- Initial heap state of fit: one heap cell holding the freshly constructed
model, self.model referring to it, no snapshot yet. -/
def initHeapState (m0 : M) : HeapFitState M :=
  { heap := [m0], live := 0, bestref := none, bestaccuracy := -1,
    stop_train := false, early_stop_count := 0, nepoch := 0 }

/-- One iteration of the fit loop on the heap model.  trainepoch updates the
live cell IN PLACE (`List.set`); on improvement `copy.deepcopy(self.model)`
appends a fresh cell with the current live value and bestmodel is rebound to
it.  `d` is a dummy default for out-of-range reads (never hit: the live cell
always exists). -/
def heapFitBody (cfg : FitConfig) (trainepoch : Nat → M → M) (scoreFn : M → ℚ)
    (d : M) (s : HeapFitState M) : HeapFitState M :=
  let mv := trainepoch s.nepoch (s.heap.getD s.live d)
  let heap1 := s.heap.set s.live mv
  let acc := scoreFn mv
  if s.bestaccuracy < acc then
    { heap := heap1 ++ [mv], live := s.live, bestref := some heap1.length,
      bestaccuracy := acc, stop_train := s.stop_train,
      early_stop_count := s.early_stop_count, nepoch := s.nepoch + cfg.epochSize }
  else if cfg.earlyStop then
    { heap := heap1, live := s.live, bestref := s.bestref,
      bestaccuracy := s.bestaccuracy,
      stop_train := s.stop_train || decide (cfg.tenacity ≤ s.early_stop_count),
      early_stop_count := s.early_stop_count + 1, nepoch := s.nepoch + cfg.epochSize }
  else
    { heap := heap1, live := s.live, bestref := s.bestref,
      bestaccuracy := s.bestaccuracy, stop_train := s.stop_train,
      early_stop_count := s.early_stop_count, nepoch := s.nepoch + cfg.epochSize }

/-- The fit training loop on the heap model, same guard and fuel as fitLoop. -/
def heapFitLoop (cfg : FitConfig) (trainepoch : Nat → M → M) (scoreFn : M → ℚ)
    (d : M) : Nat → HeapFitState M → HeapFitState M
  | 0, s => s
  | fuel + 1, s =>
      if s.stop_train = false ∧ s.nepoch ≤ cfg.maxEpoch then
        heapFitLoop cfg trainepoch scoreFn d fuel (heapFitBody cfg trainepoch scoreFn d s)
      else s

/-- The heap state at the end of the fit training loop. -/
def heapFitFinal (cfg : FitConfig) (trainepoch : Nat → M → M) (scoreFn : M → ℚ)
    (m0 : M) : HeapFitState M :=
  heapFitLoop cfg trainepoch scoreFn m0 (cfg.maxEpoch + 1) (initHeapState m0)

/-- The value of the model that `self.model = bestmodel` leaves as the live
model at the end of fit, in the heap model: the contents of the snapshot cell
(none when no snapshot was ever taken). -/
def heapRestoredModel (cfg : FitConfig) (trainepoch : Nat → M → M)
    (scoreFn : M → ℚ) (m0 : M) : Option M :=
  (heapFitFinal cfg trainepoch scoreFn m0).bestref.map
    (fun r => (heapFitFinal cfg trainepoch scoreFn m0).heap.getD r m0)

theorem fitBody_nepoch (cfg : FitConfig) (trainepoch : Nat → M → M)
    (scoreFn : M → ℚ) (s : FitState M) :
    (fitBody cfg trainepoch scoreFn s).nepoch = s.nepoch + cfg.epochSize := by
  unfold fitBody
  by_cases h1 : s.bestaccuracy < scoreFn (trainepoch s.nepoch s.model)
  · simp [h1]
  · by_cases h2 : cfg.earlyStop <;> simp [h1, h2]

theorem fitLoop_stopped (cfg : FitConfig) (trainepoch : Nat → M → M)
    (scoreFn : M → ℚ) (fuel : Nat) (s : FitState M) (h : s.stop_train = true) :
    fitLoop cfg trainepoch scoreFn fuel s = s := by
  cases fuel with
  | zero => rfl
  | succ n => simp [fitLoop, h]

theorem fitLoop_skip (cfg : FitConfig) (trainepoch : Nat → M → M)
    (scoreFn : M → ℚ) (m0 : M) :
    ∀ (k fuel : Nat), k ≤ fuel →
    (∀ j, j < k → (fitSteps cfg trainepoch scoreFn m0 j).stop_train = false ∧
                  (fitSteps cfg trainepoch scoreFn m0 j).nepoch ≤ cfg.maxEpoch) →
    fitLoop cfg trainepoch scoreFn fuel (initFitState m0) =
      fitLoop cfg trainepoch scoreFn (fuel - k) (fitSteps cfg trainepoch scoreFn m0 k) := by
  intro k
  induction k with
  | zero => intro fuel _ _; simp [fitSteps]
  | succ k ih =>
      intro fuel hk hg
      rw [ih fuel (by omega) (fun j hj => hg j (by omega))]
      have hgk := hg k (by omega)
      have hfuel : fuel - k = (fuel - (k + 1)) + 1 := by omega
      rw [hfuel]
      simp only [fitLoop]
      rw [if_pos ⟨hgk.1, hgk.2⟩]
      rfl

theorem fitLoop_guard_false (cfg : FitConfig) (trainepoch : Nat → M → M)
    (scoreFn : M → ℚ) :
    ∀ (fuel : Nat) (s : FitState M),
    cfg.maxEpoch < s.nepoch + fuel * cfg.epochSize →
    (fitLoop cfg trainepoch scoreFn fuel s).stop_train = true ∨
      cfg.maxEpoch < (fitLoop cfg trainepoch scoreFn fuel s).nepoch := by
  intro fuel
  induction fuel with
  | zero => intro s h; right; simpa [fitLoop] using h
  | succ fuel ih =>
      intro s h
      simp only [fitLoop]
      by_cases hg : s.stop_train = false ∧ s.nepoch ≤ cfg.maxEpoch
      · rw [if_pos hg]
        apply ih
        rw [fitBody_nepoch]
        have : s.nepoch + (fuel + 1) * cfg.epochSize =
            s.nepoch + cfg.epochSize + fuel * cfg.epochSize := by ring
        omega
      · rw [if_neg hg]
        rcases Bool.eq_false_or_eq_true s.stop_train with hb | hb
        · left; exact hb
        · right
          have : ¬ s.nepoch ≤ cfg.maxEpoch := fun hle => hg ⟨hb, hle⟩
          omega

theorem fitLoop_nepoch_le (cfg : FitConfig) (trainepoch : Nat → M → M)
    (scoreFn : M → ℚ) :
    ∀ (fuel : Nat) (s : FitState M), s.nepoch ≤ cfg.maxEpoch + cfg.epochSize →
    (fitLoop cfg trainepoch scoreFn fuel s).nepoch ≤ cfg.maxEpoch + cfg.epochSize := by
  intro fuel
  induction fuel with
  | zero => intro s h; simpa [fitLoop] using h
  | succ fuel ih =>
      intro s h
      simp only [fitLoop]
      by_cases hg : s.stop_train = false ∧ s.nepoch ≤ cfg.maxEpoch
      · rw [if_pos hg]
        apply ih
        rw [fitBody_nepoch]
        omega
      · rwa [if_neg hg]

theorem fitLoop_pres (cfg : FitConfig) (trainepoch : Nat → M → M)
    (scoreFn : M → ℚ) (P : FitState M → Prop)
    (hP : ∀ s, P s → P (fitBody cfg trainepoch scoreFn s)) :
    ∀ (fuel : Nat) (s : FitState M), P s →
    P (fitLoop cfg trainepoch scoreFn fuel s) := by
  intro fuel
  induction fuel with
  | zero => intro s h; simpa [fitLoop] using h
  | succ fuel ih =>
      intro s h
      simp only [fitLoop]
      by_cases hg : s.stop_train = false ∧ s.nepoch ≤ cfg.maxEpoch
      · rw [if_pos hg]; exact ih _ (hP s h)
      · rwa [if_neg hg]

theorem getD_append_left : ∀ (l1 l2 : List γ) (n : Nat) (d : γ), n < l1.length →
    (l1 ++ l2).getD n d = l1.getD n d
  | [], _, n, _, h => by simp at h
  | _ :: _, _, 0, _, _ => rfl
  | _ :: xs, l2, n + 1, d, h => by
      simp only [List.cons_append, List.getD_cons_succ]
      exact getD_append_left xs l2 n d (by simpa using h)

theorem getD_append_len : ∀ (l : List γ) (v d : γ), (l ++ [v]).getD l.length d = v
  | [], _, _ => rfl
  | _ :: xs, v, d => by
      simp only [List.cons_append, List.length_cons, List.getD_cons_succ]
      exact getD_append_len xs v d

/-- The correspondence between a pure fit loop state and a heap fit loop
state: same scalar fields, the live cell (cell 0) holds the pure live model,
and the snapshot reference — when one exists — points at a cell DISTINCT from
the live cell that holds exactly the pure state's snapshot value. -/
def HeapSim (d : M) (s : FitState M) (hs : HeapFitState M) : Prop :=
  hs.live = 0 ∧
  hs.nepoch = s.nepoch ∧
  hs.bestaccuracy = s.bestaccuracy ∧
  hs.stop_train = s.stop_train ∧
  hs.early_stop_count = s.early_stop_count ∧
  hs.heap ≠ [] ∧
  hs.heap.getD 0 d = s.model ∧
  ((hs.bestref = none ∧ s.bestmodel = none) ∨
   (∃ r b, hs.bestref = some r ∧ s.bestmodel = some b ∧
      1 ≤ r ∧ r < hs.heap.length ∧ hs.heap.getD r d = b))

theorem heapSim_body (cfg : FitConfig) (trainepoch : Nat → M → M)
    (scoreFn : M → ℚ) (d : M) (s : FitState M) (hs : HeapFitState M)
    (h : HeapSim d s hs) :
    HeapSim d (fitBody cfg trainepoch scoreFn s)
      (heapFitBody cfg trainepoch scoreFn d hs) := by
  obtain ⟨hheap, hlive, hbref, hbacc0, hstop0, hcount0, hnep0⟩ := hs
  obtain ⟨hlive, hnep, hbacc, hstop, hcount, hne, hlivev, hbest⟩ := h
  subst hlive hnep hbacc hstop hcount
  obtain ⟨h0, rest, hheap'⟩ := List.exists_cons_of_ne_nil hne
  subst hheap'
  dsimp only at hlivev hbest ⊢
  have hmv : trainepoch s.nepoch ((h0 :: rest).getD 0 d)
      = trainepoch s.nepoch s.model := congrArg _ hlivev
  unfold fitBody heapFitBody
  dsimp only
  rw [hmv, List.set_cons_zero]
  by_cases hacc : s.bestaccuracy < scoreFn (trainepoch s.nepoch s.model)
  · rw [if_pos hacc, if_pos hacc]
    refine ⟨rfl, rfl, rfl, rfl, rfl, by simp, ?_, ?_⟩
    · exact getD_append_left _ _ 0 d (by simp)
    · right
      refine ⟨(trainepoch s.nepoch s.model :: rest).length,
              trainepoch s.nepoch s.model, rfl, rfl, by simp, by simp, ?_⟩
      exact getD_append_len _ _ d
  · rw [if_neg hacc, if_neg hacc]
    have hbest' : ((some (trainepoch s.nepoch s.model) :: rest.map some).length =
        (trainepoch s.nepoch s.model :: rest).length) := by simp
    by_cases hes : cfg.earlyStop
    · rw [if_pos hes, if_pos hes]
      refine ⟨rfl, rfl, rfl, rfl, rfl, by simp, rfl, ?_⟩
      rcases hbest with ⟨hb1, hb2⟩ | ⟨r, b, hb1, hb2, hr1, hr2, hr3⟩
      · left; exact ⟨hb1, hb2⟩
      · right
        refine ⟨r, b, hb1, hb2, hr1, by simpa using hr2, ?_⟩
        obtain ⟨r', rfl⟩ : ∃ k, r = k + 1 := ⟨r - 1, by omega⟩
        simpa only [List.getD_cons_succ] using hr3
    · rw [if_neg hes, if_neg hes]
      refine ⟨rfl, rfl, rfl, rfl, rfl, by simp, rfl, ?_⟩
      rcases hbest with ⟨hb1, hb2⟩ | ⟨r, b, hb1, hb2, hr1, hr2, hr3⟩
      · left; exact ⟨hb1, hb2⟩
      · right
        refine ⟨r, b, hb1, hb2, hr1, by simpa using hr2, ?_⟩
        obtain ⟨r', rfl⟩ : ∃ k, r = k + 1 := ⟨r - 1, by omega⟩
        simpa only [List.getD_cons_succ] using hr3

theorem heapSim_loop (cfg : FitConfig) (trainepoch : Nat → M → M)
    (scoreFn : M → ℚ) (d : M) :
    ∀ (fuel : Nat) (s : FitState M) (hs : HeapFitState M), HeapSim d s hs →
    HeapSim d (fitLoop cfg trainepoch scoreFn fuel s)
      (heapFitLoop cfg trainepoch scoreFn d fuel hs) := by
  intro fuel
  induction fuel with
  | zero => intro s hs h; simpa [fitLoop, heapFitLoop] using h
  | succ fuel ih =>
      intro s hs h
      have hg : (hs.stop_train = false ∧ hs.nepoch ≤ cfg.maxEpoch) ↔
          (s.stop_train = false ∧ s.nepoch ≤ cfg.maxEpoch) := by
        rw [h.2.2.2.1, h.2.1]
      simp only [fitLoop, heapFitLoop]
      by_cases hcond : s.stop_train = false ∧ s.nepoch ≤ cfg.maxEpoch
      · rw [if_pos hcond, if_pos (hg.mpr hcond)]
        exact ih _ _ (heapSim_body cfg trainepoch scoreFn d s hs h)
      · rw [if_neg hcond, if_neg (fun hc => hcond (hg.mp hc))]
        exact h

/-- A trainepoch stub for concrete runs: the "model" is just a counter of how
many training epochs it has absorbed. -/
def trainTick : Nat → Nat → Nat := fun _ m => m + 1

/-- Concrete per-epoch accuracies 1, 0, 0, ... (read off the trainTick
counter): one improving epoch, then a plateau. -/
def scorePeak1 : Nat → ℚ := fun m => if m = 1 then 1 else 0

/-- Concrete per-epoch accuracies 1, 0, 2, 2, ... : improvement, one failure,
then improvement again. -/
def scoreDip : Nat → ℚ := fun m => if m = 1 then 1 else if m = 2 then 0 else 2

/-- Concrete per-epoch accuracies 1, 2, 0, 0, ... : two strictly improving
epochs, then a plateau. -/
def scoreRise2 : Nat → ℚ := fun m => if m = 1 then 1 else if m = 2 then 2 else 0

/-- Constant zero accuracy. -/
def scoreZero : Nat → ℚ := fun _ => 0

/-- C3: prepare_split's guard is `assert validation_split or validation_data`
(classifier.py line 40): it fails exactly when NEITHER argument is truthy.
Supplying both does NOT fail — refuting the claim that exactly-one is
enforced.  Here: both supplied, result is a normal Except.ok. -/
theorem claim_C3_counterexample :
    prepare_split [(1 : ℚ), 2] [(0 : Nat), 1] (some ([(3 : ℚ)], [(1 : Nat)]))
        (some (1/2)) [0, 1]
      = Except.ok ([(1 : ℚ), 2], [(0 : Nat), 1], [(3 : ℚ)], [(1 : Nat)]) := by
  simp [prepare_split]

/-- C3 (amended): prepare_split raises its argument-validation (assertion)
error exactly when neither validation_data nor a truthy validation_split is
supplied; in every other case — including BOTH supplied — it succeeds. -/
theorem claim_C3_amended [Inhabited α] [Inhabited β] (X : List α) (y : List β)
    (vd : Option (List α × List β)) (vs : Option ℚ) (perm : List Nat) :
    exceptIsOk (prepare_split X y vd vs perm) = (truthySplit vs || vd.isSome) := by
  cases vd with
  | some vd0 => simp [prepare_split, exceptIsOk]
  | none =>
      cases ht : truthySplit vs with
      | true => simp [prepare_split, ht, exceptIsOk]
      | false => simp [prepare_split, ht, exceptIsOk]

/-- C9: when both validation_data and validation_split are supplied,
prepare_split raises no error, validation_data takes precedence (the split
branch is never reached because `validation_data is not None`), and the
result is (X, y, devX, devy) with the training portion the full input. -/
theorem claim_C9_precedence [Inhabited α] [Inhabited β] (X : List α) (y : List β)
    (devX : List α) (devy : List β) (vs : Option ℚ) (perm : List Nat) :
    prepare_split X y (some (devX, devy)) vs perm = Except.ok (X, y, devX, devy) := by
  simp [prepare_split]

/-- C2: the failure counter is NOT reset to zero on an improving epoch.
Concrete run (accuracies 1, 0, 2 over three epochs, tenacity 5): epoch 2
raises the counter to 1; epoch 3 strictly improves the best accuracy to 2,
yet the counter stays at 1 — it is never reset. -/
theorem claim_C2_counterexample :
    (fitFinal ⟨2, 1, 5, true⟩ trainTick scoreDip 0).bestaccuracy = 2 ∧
    (fitFinal ⟨2, 1, 5, true⟩ trainTick scoreDip 0).early_stop_count = 1 ∧
    (fitFinal ⟨2, 1, 5, true⟩ trainTick scoreDip 0).early_stop_count ≠ 0 := by
  decide

/-- C2 (amended): on a strictly improving epoch the early-stop failure
counter is left UNCHANGED (the improving branch simply does not touch it —
there is no reset); on a non-improving epoch with early stopping enabled it
is incremented by one, and without early stopping it is unchanged.  Hence
non-improving epochs accumulate cumulatively across the whole run toward the
tenacity threshold, not consecutively. -/
theorem claim_C2_amended (cfg : FitConfig) (trainepoch : Nat → M → M)
    (scoreFn : M → ℚ) (s : FitState M) :
    (fitBody cfg trainepoch scoreFn s).early_stop_count =
      if s.bestaccuracy < scoreFn (trainepoch s.nepoch s.model) then
        s.early_stop_count
      else if cfg.earlyStop then s.early_stop_count + 1
      else s.early_stop_count := by
  unfold fitBody
  by_cases h1 : s.bestaccuracy < scoreFn (trainepoch s.nepoch s.model)
  · simp [h1]
  · by_cases h2 : cfg.earlyStop <;> simp [h1, h2]

/-- C4: the best-model snapshot never aliases the live model.  In the heap
model — where trainepoch's parameter updates mutate the live cell in place
and copy.deepcopy allocates a fresh cell — the model restored by
`self.model = bestmodel` at the end of fit carries exactly the value the pure
functional loop records as the best snapshot, i.e. the weights from the
best-accuracy epoch, untouched by every later trainepoch update. -/
theorem claim_C4_no_aliasing (cfg : FitConfig) (trainepoch : Nat → M → M)
    (scoreFn : M → ℚ) (m0 : M) :
    heapRestoredModel cfg trainepoch scoreFn m0
      = (fitFinal cfg trainepoch scoreFn m0).bestmodel := by
  have hsim : HeapSim m0 (initFitState m0) (initHeapState m0) :=
    ⟨rfl, rfl, rfl, rfl, rfl, by simp [initHeapState], rfl, Or.inl ⟨rfl, rfl⟩⟩
  have h := heapSim_loop cfg trainepoch scoreFn m0 (cfg.maxEpoch + 1) _ _ hsim
  unfold heapRestoredModel heapFitFinal fitFinal
  rcases h.2.2.2.2.2.2.2 with ⟨hb1, hb2⟩ | ⟨r, b, hb1, hb2, _, _, hr3⟩
  · rw [hb1, hb2]
    rfl
  · rw [hb1, hb2]
    simpa [List.getD] using hr3

/-- C5: the epoch cap can be OVERSHOT.  Concrete run with max_epoch = 2 and
epoch_size = 1 and no early stop firing: the guard `self.nepoch <= max_epoch`
admits nepoch = 2, so a third trainepoch call runs and the total number of
epochs is 3 > max_epoch — refuting "never exceeds max_epoch". -/
theorem claim_C5_counterexample :
    (fitFinal ⟨2, 1, 5, true⟩ trainTick scoreZero 0).nepoch = 3 ∧
    (⟨2, 1, 5, true⟩ : FitConfig).maxEpoch
      < (fitFinal ⟨2, 1, 5, true⟩ trainTick scoreZero 0).nepoch := by
  decide

/-- C5 (amended): with epoch_size ≥ 1 the fit loop always terminates, either
because stop_train was set or because nepoch exceeded max_epoch, and the
total number of training epochs performed is bounded by
max_epoch + epoch_size (the loop body runs only while nepoch ≤ max_epoch and
each run adds epoch_size epochs) — but it may exceed max_epoch itself. -/
theorem claim_C5_amended (cfg : FitConfig) (trainepoch : Nat → M → M)
    (scoreFn : M → ℚ) (m0 : M) (heS : 1 ≤ cfg.epochSize) :
    (fitFinal cfg trainepoch scoreFn m0).nepoch ≤ cfg.maxEpoch + cfg.epochSize ∧
    ((fitFinal cfg trainepoch scoreFn m0).stop_train = true ∨
      cfg.maxEpoch < (fitFinal cfg trainepoch scoreFn m0).nepoch) := by
  constructor
  · exact fitLoop_nepoch_le cfg trainepoch scoreFn _ _ (Nat.zero_le _)
  · apply fitLoop_guard_false cfg trainepoch scoreFn
    have h2 : (cfg.maxEpoch + 1) * 1 ≤ (cfg.maxEpoch + 1) * cfg.epochSize :=
      Nat.mul_le_mul_left _ heS
    have h0 : (initFitState m0 : FitState M).nepoch = 0 := rfl
    rw [h0]
    omega

theorem claim_C5_witness :
    (fitFinal ⟨3, 2, 0, false⟩ trainTick scoreZero 0).nepoch ≤ 3 + 2 ∧
    ((fitFinal ⟨3, 2, 0, false⟩ trainTick scoreZero 0).stop_train = true ∨
      3 < (fitFinal ⟨3, 2, 0, false⟩ trainTick scoreZero 0).nepoch) :=
  claim_C5_amended ⟨3, 2, 0, false⟩ trainTick scoreZero 0 (by decide)

/-- C7: predict_proba only ever stores the first batch's probabilities and
aborts on any input spanning more than one batch (classifier.py lines
138-141: `if not probas` on a numpy array, and
`np.concatenate(probas, vals, axis=0)` with `vals` in the axis position),
whereas the intended accumulation returns one softmax row per example.
Failing input: two examples with batch_size 1. -/
theorem claim_C7_bug :
    predict_proba (fun q : ℚ => [q]) (fun l => l) 1 [0, 1]
      = Except.error "TypeError: np.concatenate(probas, vals, axis=0)" ∧
    predict_proba_spec (fun q : ℚ => [q]) (fun l => l) 1 [0, 1] = [[0], [1]] := by
  constructor
  · simp [predict_proba, chunkList, ppLoop]
  · simp [predict_proba_spec, chunkList]

/-- C6: in all three validation strategies the winning regularization
candidate is `regs[np.argmax(scores)]`; np.argmax picks an index of the score
table that attains the maximum, and every index strictly before it scores
strictly less — so ties go to the first candidate in list-generation order,
deterministically. -/
theorem claim_C6_first_max (regs scoreTable : List ℚ) (j : Nat)
    (hne : scoreTable ≠ []) (hj : j < scoreTable.length) :
    np_argmax scoreTable < scoreTable.length ∧
    scoreTable.getD j 0 ≤ scoreTable.getD (np_argmax scoreTable) 0 ∧
    (j < np_argmax scoreTable →
      scoreTable.getD j 0 < scoreTable.getD (np_argmax scoreTable) 0) ∧
    innerKFold_optreg regs scoreTable = regs.getD (np_argmax scoreTable) 0 ∧
    kfold_optreg regs scoreTable = regs.getD (np_argmax scoreTable) 0 ∧
    split_optreg regs scoreTable = regs.getD (np_argmax scoreTable) 0 :=
  ⟨np_argmax_lt_length _ hne, np_argmax_is_max _ j hj,
   fun h => np_argmax_first _ j h, rfl, rfl, rfl⟩

theorem claim_C6_witness :
    np_argmax [50, 70, 70, 60] < ([50, 70, 70, 60] : List ℚ).length ∧
    ([50, 70, 70, 60] : List ℚ).getD 0 0
      ≤ ([50, 70, 70, 60] : List ℚ).getD (np_argmax [50, 70, 70, 60]) 0 ∧
    (0 < np_argmax [50, 70, 70, 60] →
      ([50, 70, 70, 60] : List ℚ).getD 0 0
        < ([50, 70, 70, 60] : List ℚ).getD (np_argmax [50, 70, 70, 60]) 0) ∧
    innerKFold_optreg regs_pytorch [50, 70, 70, 60]
      = regs_pytorch.getD (np_argmax [50, 70, 70, 60]) 0 ∧
    kfold_optreg regs_pytorch [50, 70, 70, 60]
      = regs_pytorch.getD (np_argmax [50, 70, 70, 60]) 0 ∧
    split_optreg regs_pytorch [50, 70, 70, 60]
      = regs_pytorch.getD (np_argmax [50, 70, 70, 60]) 0 :=
  claim_C6_first_max regs_pytorch [50, 70, 70, 60] 0 (by decide) (by decide)

theorem zip_take_eq : ∀ (n : Nat) (as : List A) (bs : List B),
    (as.take n).zip (bs.take n) = (as.zip bs).take n
  | 0, _, _ => by simp
  | _ + 1, [], _ => by simp
  | _ + 1, _ :: _, [] => by simp
  | n + 1, a :: as, b :: bs => by
      simp only [List.take_succ_cons, List.zip_cons_cons]
      rw [zip_take_eq n as bs]

theorem zip_drop_eq : ∀ (n : Nat) (as : List A) (bs : List B),
    (as.drop n).zip (bs.drop n) = (as.zip bs).drop n
  | 0, _, _ => by simp
  | _ + 1, [], _ => by simp
  | _ + 1, _ :: _, [] => by simp
  | n + 1, _ :: as, _ :: bs => by
      simp only [List.drop_succ_cons, List.zip_cons_cons]
      exact zip_drop_eq n as bs

theorem foldl_add_batchCorrect (model : α → List ℚ) :
    ∀ (pairs : List (List α × List Nat)) (acc : Nat),
    pairs.foldl (fun a p => a + batchCorrect model p.1 p.2) acc
      = acc + (pairs.map (fun p => batchCorrect model p.1 p.2)).sum
  | [], acc => by simp
  | p :: ps, acc => by
      simp only [List.foldl_cons, List.map_cons, List.sum_cons]
      rw [foldl_add_batchCorrect model ps]
      omega

/-- The batched correct-prediction count of score equals the unbatched count
over the whole dataset: chunking devX and devy in lockstep partitions the
zipped pairs. -/
theorem chunk_correct_eq (model : α → List ℚ) (bs : Nat) :
    ∀ (X : List α) (Y : List Nat), X.length = Y.length →
    ((chunkList bs X).zip (chunkList bs Y)).foldl
        (fun acc p => acc + batchCorrect model p.1 p.2) 0
      = (X.zip Y).countP (fun p => decide (np_argmax (model p.1) = p.2))
  | [], Y, h => by
      have hY : Y = [] := List.length_eq_zero.mp (by simpa using h.symm)
      subst hY
      simp [chunkList]
  | x :: xs, Y, h => by
      obtain ⟨y, ys, rfl⟩ : ∃ y ys, Y = y :: ys := by
        cases Y with
        | nil => simp at h
        | cons y ys => exact ⟨y, ys, rfl⟩
      have hlen : (xs.drop (bs - 1)).length = (ys.drop (bs - 1)).length := by
        simp only [List.length_drop]
        simp only [List.length_cons] at h
        omega
      have ih := chunk_correct_eq model bs (xs.drop (bs - 1)) (ys.drop (bs - 1)) hlen
      rw [chunkList, chunkList]
      simp only [List.zip_cons_cons, List.foldl_cons, Nat.zero_add]
      rw [foldl_add_batchCorrect]
      rw [foldl_add_batchCorrect] at ih
      simp only [Nat.zero_add] at ih
      rw [ih]
      unfold batchCorrect
      simp only [List.zip_cons_cons, List.countP_cons]
      rw [zip_take_eq, zip_drop_eq]
      have hsplit : ((xs.zip ys).take (bs - 1)).countP
            (fun p => decide (np_argmax (model p.1) = p.2))
          + ((xs.zip ys).drop (bs - 1)).countP
            (fun p => decide (np_argmax (model p.1) = p.2))
          = (xs.zip ys).countP (fun p => decide (np_argmax (model p.1) = p.2)) := by
        rw [← List.countP_append, List.take_append_drop]
      omega
  termination_by X => X.length
  decreasing_by simp only [List.length_drop, List.length_cons]; omega

theorem predict_eq_map (model : α → List ℚ) (bs : Nat) (devX : List α) :
    predict model bs devX = devX.map (fun x => np_argmax (model x)) := by
  suffices h : ∀ (cs : List (List α)) (acc : List Nat),
      cs.foldl (fun a b => a ++ b.map (fun x => np_argmax (model x))) acc
        = acc ++ cs.flatten.map (fun x => np_argmax (model x)) by
    rw [predict, h, chunkList_flatten]
    simp
  intro cs
  induction cs with
  | nil => intro acc; simp
  | cons c cs ih => intro acc; simp [ih, List.append_assoc]

theorem score_nonneg (model : α → List ℚ) (bs : Nat) (devX : List α)
    (devy : List Nat) : 0 ≤ score model bs devX devy :=
  div_nonneg (Nat.cast_nonneg _) (Nat.cast_nonneg _)

/-- C8: score equals the fraction of examples whose predicted class (the
argmax of the model's logits, exactly what predict returns in input order)
matches the true label, and that fraction lies in [0, 1].  The batched
accumulation of score adds up to the whole-dataset count. -/
theorem claim_C8_score (model : α → List ℚ) (bs : Nat) (devX : List α)
    (devy : List Nat) (_hbs : 0 < bs) (hlen : devX.length = devy.length)
    (hne : devX ≠ []) :
    score model bs devX devy
      = ((((predict model bs devX).zip devy).countP
            (fun p => decide (p.1 = p.2)) : Nat) : ℚ) / (devX.length : ℚ) ∧
    0 ≤ score model bs devX devy ∧ score model bs devX devy ≤ 1 := by
  have hcount := chunk_correct_eq model bs devX devy hlen
  have hpred : ((predict model bs devX).zip devy).countP (fun p => decide (p.1 = p.2))
      = (devX.zip devy).countP (fun p => decide (np_argmax (model p.1) = p.2)) := by
    rw [predict_eq_map, List.zip_map_left, List.countP_map]
    simp [Function.comp_def, Prod.map]
  refine ⟨?_, score_nonneg model bs devX devy, ?_⟩
  · unfold score
    rw [hcount, hpred]
  · unfold score
    rw [hcount]
    have hNpos : 0 < devX.length := List.length_pos.mpr hne
    have hc : (devX.zip devy).countP (fun p => decide (np_argmax (model p.1) = p.2))
        ≤ devX.length := by
      refine le_trans (List.countP_le_length _) ?_
      rw [List.length_zip]
      omega
    rw [div_le_one (by exact_mod_cast hNpos)]
    exact_mod_cast hc

/-- A concrete two-class model on Nat inputs: input 0 prefers class 0, any
other input prefers class 1. -/
def twoLabelModel : Nat → List ℚ := fun n => if n = 0 then [1, 0] else [0, 1]

theorem claim_C8_witness :
    score twoLabelModel 2 [0, 1, 2] [0, 1, 0]
      = ((((predict twoLabelModel 2 [0, 1, 2]).zip [0, 1, 0]).countP
            (fun p => decide (p.1 = p.2)) : Nat) : ℚ)
          / ((([0, 1, 2] : List Nat).length : Nat) : ℚ) ∧
    0 ≤ score twoLabelModel 2 [0, 1, 2] [0, 1, 0] ∧
    score twoLabelModel 2 [0, 1, 2] [0, 1, 0] ≤ 1 :=
  claim_C8_score twoLabelModel 2 [0, 1, 2] [0, 1, 0] (by decide) (by decide) (by decide)

theorem fitFinal_bestmodel_isSome (cfg : FitConfig) (trainepoch : Nat → M → M)
    (scoreFn : M → ℚ) (m0 : M) (h : ∀ m : M, 0 ≤ scoreFn m) :
    ((fitFinal cfg trainepoch scoreFn m0).bestmodel).isSome = true ∧
    0 ≤ (fitFinal cfg trainepoch scoreFn m0).bestaccuracy := by
  have hP : ∀ s : FitState M, (s.bestmodel.isSome = true ∧ 0 ≤ s.bestaccuracy) →
      ((fitBody cfg trainepoch scoreFn s).bestmodel.isSome = true ∧
        0 ≤ (fitBody cfg trainepoch scoreFn s).bestaccuracy) := by
    intro s hs
    unfold fitBody
    by_cases h1 : s.bestaccuracy < scoreFn (trainepoch s.nepoch s.model)
    · simp only [if_pos h1]
      exact ⟨rfl, h _⟩
    · rw [if_neg h1]
      by_cases h2 : cfg.earlyStop = true
      · rw [if_pos h2]
        exact ⟨hs.1, hs.2⟩
      · rw [if_neg h2]
        exact ⟨hs.1, hs.2⟩
  have h0 : ((fitBody cfg trainepoch scoreFn (initFitState m0)).bestmodel.isSome = true ∧
      0 ≤ (fitBody cfg trainepoch scoreFn (initFitState m0)).bestaccuracy) := by
    have hneg : (initFitState m0 : FitState M).bestaccuracy = -1 := rfl
    have hlt : (initFitState m0 : FitState M).bestaccuracy
        < scoreFn (trainepoch (initFitState m0 : FitState M).nepoch
            (initFitState m0 : FitState M).model) := by
      rw [hneg]
      exact lt_of_lt_of_le (by norm_num) (h _)
    unfold fitBody
    simp only [if_pos hlt]
    exact ⟨rfl, h _⟩
  have hg : (initFitState m0 : FitState M).stop_train = false ∧
      (initFitState m0 : FitState M).nepoch ≤ cfg.maxEpoch := ⟨rfl, Nat.zero_le _⟩
  unfold fitFinal
  simp only [fitLoop]
  rw [if_pos hg]
  exact fitLoop_pres cfg trainepoch scoreFn _ hP _ _ h0

/-- C10: with any max_epoch (≥ 0 holds for every Nat) the loop body runs at
least once, the first epoch's validation accuracy — a score value, hence
≥ 0 — strictly beats the initial bestaccuracy of -1, so a snapshot is always
captured (bestmodel is bound, `self.model = bestmodel` cannot hit an unbound
name) and the returned best accuracy is ≥ 0. -/
theorem claim_C10_snapshot_exists (cfg : FitConfig) (bs : Nat) (devX : List α)
    (devy : List Nat) (trainepoch : Nat → (α → List ℚ) → (α → List ℚ))
    (m0 : α → List ℚ) (_hne : devX ≠ []) :
    ((fitFinal cfg trainepoch (fun m => score m bs devX devy) m0).bestmodel).isSome
        = true ∧
    0 ≤ (fitFinal cfg trainepoch (fun m => score m bs devX devy) m0).bestaccuracy :=
  fitFinal_bestmodel_isSome cfg trainepoch _ m0
    (fun m => score_nonneg m bs devX devy)

theorem claim_C10_witness :
    ((fitFinal ⟨0, 1, 5, true⟩ (fun _ m => m)
        (fun m => score m 1 [0] [0]) twoLabelModel).bestmodel).isSome = true ∧
    0 ≤ (fitFinal ⟨0, 1, 5, true⟩ (fun _ m => m)
        (fun m => score m 1 [0] [0]) twoLabelModel).bestaccuracy :=
  claim_C10_snapshot_exists ⟨0, 1, 5, true⟩ 1 [0] [0] (fun _ m => m) twoLabelModel
    (by decide)

theorem fitBody_improve (cfg : FitConfig) (trainepoch : Nat → M → M)
    (scoreFn : M → ℚ) (s : FitState M)
    (h : s.bestaccuracy < scoreFn (trainepoch s.nepoch s.model)) :
    fitBody cfg trainepoch scoreFn s =
      { nepoch := s.nepoch + cfg.epochSize,
        bestaccuracy := scoreFn (trainepoch s.nepoch s.model),
        bestmodel := some (trainepoch s.nepoch s.model),
        stop_train := s.stop_train, early_stop_count := s.early_stop_count,
        model := trainepoch s.nepoch s.model } := by
  unfold fitBody
  rw [if_pos h]

theorem fitBody_noimprove (cfg : FitConfig) (trainepoch : Nat → M → M)
    (scoreFn : M → ℚ) (s : FitState M)
    (h : ¬ s.bestaccuracy < scoreFn (trainepoch s.nepoch s.model))
    (hes : cfg.earlyStop = true) :
    fitBody cfg trainepoch scoreFn s =
      { nepoch := s.nepoch + cfg.epochSize, bestaccuracy := s.bestaccuracy,
        bestmodel := s.bestmodel,
        stop_train := s.stop_train || decide (cfg.tenacity ≤ s.early_stop_count),
        early_stop_count := s.early_stop_count + 1,
        model := trainepoch s.nepoch s.model } := by
  unfold fitBody
  rw [if_neg h, if_pos hes]

/-- Trajectory of the fit loop during the strictly improving prefix: after
k ≤ E epochs (epoch_size = 1), the best accuracy is epoch k's accuracy, the
snapshot is the model after k epochs, and the failure counter is still 0. -/
theorem fitSteps_phaseA (maxE t E : Nat) (trainepoch : Nat → M → M)
    (scoreFn : M → ℚ) (m0 : M)
    (h0 : -1 < accAt trainepoch scoreFn m0 1)
    (hinc : ∀ k, 1 ≤ k → k < E →
      accAt trainepoch scoreFn m0 k < accAt trainepoch scoreFn m0 (k + 1)) :
    ∀ k, 1 ≤ k → k ≤ E →
    fitSteps ⟨maxE, 1, t, true⟩ trainepoch scoreFn m0 k =
      { nepoch := k, bestaccuracy := accAt trainepoch scoreFn m0 k,
        bestmodel := some (modelAt trainepoch m0 k), stop_train := false,
        early_stop_count := 0, model := modelAt trainepoch m0 k } := by
  intro k
  induction k with
  | zero => intro h1 _; omega
  | succ k' ih =>
      intro _ hkE
      by_cases hk' : 1 ≤ k'
      · have hrec := ih hk' (by omega)
        show fitBody ⟨maxE, 1, t, true⟩ trainepoch scoreFn
            (fitSteps ⟨maxE, 1, t, true⟩ trainepoch scoreFn m0 k') = _
        rw [hrec]
        rw [fitBody_improve ⟨maxE, 1, t, true⟩ trainepoch scoreFn _
          (hinc k' hk' (by omega))]
        rfl
      · have hk0 : k' = 0 := by omega
        subst hk0
        show fitBody ⟨maxE, 1, t, true⟩ trainepoch scoreFn (initFitState m0) = _
        rw [fitBody_improve ⟨maxE, 1, t, true⟩ trainepoch scoreFn
          (initFitState m0) h0]
        rfl

/-- Trajectory of the fit loop during the plateau, before the stop flag is
set: after E + j epochs with j ≤ tenacity, the best accuracy and snapshot are
still those of epoch E, the failure counter has reached j, and stop_train is
still false (the guard `early_stop_count >= tenacity` is checked BEFORE the
increment). -/
theorem fitSteps_phaseB (maxE t E : Nat) (trainepoch : Nat → M → M)
    (scoreFn : M → ℚ) (m0 : M) (hE : 1 ≤ E)
    (h0 : -1 < accAt trainepoch scoreFn m0 1)
    (hinc : ∀ k, 1 ≤ k → k < E →
      accAt trainepoch scoreFn m0 k < accAt trainepoch scoreFn m0 (k + 1))
    (hplat : ∀ k, E < k → k ≤ E + t + 1 →
      accAt trainepoch scoreFn m0 k ≤ accAt trainepoch scoreFn m0 E) :
    ∀ j, j ≤ t →
    fitSteps ⟨maxE, 1, t, true⟩ trainepoch scoreFn m0 (E + j) =
      { nepoch := E + j, bestaccuracy := accAt trainepoch scoreFn m0 E,
        bestmodel := some (modelAt trainepoch m0 E), stop_train := false,
        early_stop_count := j, model := modelAt trainepoch m0 (E + j) } := by
  intro j
  induction j with
  | zero =>
      intro _
      exact fitSteps_phaseA maxE t E trainepoch scoreFn m0 h0 hinc E hE le_rfl
  | succ j ih =>
      intro hj
      have hrec := ih (by omega)
      show fitBody ⟨maxE, 1, t, true⟩ trainepoch scoreFn
          (fitSteps ⟨maxE, 1, t, true⟩ trainepoch scoreFn m0 (E + j)) = _
      rw [hrec]
      rw [fitBody_noimprove ⟨maxE, 1, t, true⟩ trainepoch scoreFn _
        (not_lt.mpr (hplat (E + j + 1) (by omega) (by omega))) rfl]
      simp only [Bool.false_or]
      rw [decide_eq_false (by omega : ¬ t ≤ j)]
      rfl

/-- The state at which the fit loop stops: at epoch E + tenacity + 1 the
failure counter (now tenacity) finally satisfies the `>= tenacity` guard, so
the epoch sets stop_train, still carrying epoch E's snapshot and accuracy. -/
theorem fitSteps_stopState (maxE t E : Nat) (trainepoch : Nat → M → M)
    (scoreFn : M → ℚ) (m0 : M) (hE : 1 ≤ E)
    (h0 : -1 < accAt trainepoch scoreFn m0 1)
    (hinc : ∀ k, 1 ≤ k → k < E →
      accAt trainepoch scoreFn m0 k < accAt trainepoch scoreFn m0 (k + 1))
    (hplat : ∀ k, E < k → k ≤ E + t + 1 →
      accAt trainepoch scoreFn m0 k ≤ accAt trainepoch scoreFn m0 E) :
    fitSteps ⟨maxE, 1, t, true⟩ trainepoch scoreFn m0 (E + t + 1) =
      { nepoch := E + t + 1, bestaccuracy := accAt trainepoch scoreFn m0 E,
        bestmodel := some (modelAt trainepoch m0 E), stop_train := true,
        early_stop_count := t + 1, model := modelAt trainepoch m0 (E + t + 1) } := by
  have hrec := fitSteps_phaseB maxE t E trainepoch scoreFn m0 hE h0 hinc hplat t le_rfl
  show fitBody ⟨maxE, 1, t, true⟩ trainepoch scoreFn
      (fitSteps ⟨maxE, 1, t, true⟩ trainepoch scoreFn m0 (E + t)) = _
  rw [hrec]
  rw [fitBody_noimprove ⟨maxE, 1, t, true⟩ trainepoch scoreFn _
    (not_lt.mpr (hplat (E + t + 1) (by omega) (by omega))) rfl]
  simp only [Bool.false_or]
  rw [decide_eq_true (le_refl t)]
  rfl

/-- C1: the loop does NOT stop at epoch E + tenacity.  Concrete run with
E = 1 improving epoch (accuracy 1), a permanent plateau (accuracy 0) and
tenacity 1: the claim predicts stopping at epoch 2, but the counter is
compared BEFORE being incremented, so the loop runs a third epoch and stops
only then — 3 epochs, not 2. -/
theorem claim_C1_counterexample :
    (fitFinal ⟨10, 1, 1, true⟩ trainTick scorePeak1 0).nepoch = 3 ∧
    (fitFinal ⟨10, 1, 1, true⟩ trainTick scorePeak1 0).nepoch ≠ 1 + 1 := by
  decide

/-- C1 (amended): with early stopping on, epoch_size 1 and tenacity ≤
max_epoch - E, a validation-accuracy sequence that strictly increases for the
first E epochs and then never improves stops training exactly at epoch
E + tenacity + 1 (tenacity + 1 non-improving epochs are tolerated, because
the counter is compared against tenacity before being incremented); on
completion the live model is replaced by the deep-copy snapshot captured at
epoch E and fit returns epoch E's validation accuracy. -/
theorem claim_C1_amended (maxE t E : Nat) (trainepoch : Nat → M → M)
    (scoreFn : M → ℚ) (m0 : M) (hE : 1 ≤ E) (hcap : E + t ≤ maxE)
    (h0 : -1 < accAt trainepoch scoreFn m0 1)
    (hinc : ∀ k, 1 ≤ k → k < E →
      accAt trainepoch scoreFn m0 k < accAt trainepoch scoreFn m0 (k + 1))
    (hplat : ∀ k, E < k → k ≤ E + t + 1 →
      accAt trainepoch scoreFn m0 k ≤ accAt trainepoch scoreFn m0 E) :
    (fitFinal ⟨maxE, 1, t, true⟩ trainepoch scoreFn m0).nepoch = E + t + 1 ∧
    (fitFinal ⟨maxE, 1, t, true⟩ trainepoch scoreFn m0).bestmodel
      = some (modelAt trainepoch m0 E) ∧
    (fitFinal ⟨maxE, 1, t, true⟩ trainepoch scoreFn m0).bestaccuracy
      = accAt trainepoch scoreFn m0 E ∧
    fit ⟨maxE, 1, t, true⟩ trainepoch scoreFn m0
      = (some (modelAt trainepoch m0 E), accAt trainepoch scoreFn m0 E) := by
  have hstop := fitSteps_stopState maxE t E trainepoch scoreFn m0 hE h0 hinc hplat
  have hguards : ∀ j, j < E + t + 1 →
      (fitSteps ⟨maxE, 1, t, true⟩ trainepoch scoreFn m0 j).stop_train = false ∧
      (fitSteps ⟨maxE, 1, t, true⟩ trainepoch scoreFn m0 j).nepoch ≤ maxE := by
    intro j hj
    by_cases hj0 : j = 0
    · subst hj0
      exact ⟨rfl, Nat.zero_le _⟩
    · by_cases hjE : j ≤ E
      · rw [fitSteps_phaseA maxE t E trainepoch scoreFn m0 h0 hinc j (by omega) hjE]
        refine ⟨rfl, ?_⟩
        show j ≤ maxE
        omega
      · have hsplitj : E + (j - E) = j := by omega
        rw [← hsplitj,
          fitSteps_phaseB maxE t E trainepoch scoreFn m0 hE h0 hinc hplat
            (j - E) (by omega)]
        refine ⟨rfl, ?_⟩
        show E + (j - E) ≤ maxE
        omega
  have hfin : fitFinal ⟨maxE, 1, t, true⟩ trainepoch scoreFn m0 =
      fitSteps ⟨maxE, 1, t, true⟩ trainepoch scoreFn m0 (E + t + 1) := by
    unfold fitFinal
    rw [fitLoop_skip ⟨maxE, 1, t, true⟩ trainepoch scoreFn m0 (E + t + 1)
      (maxE + 1) (by omega) hguards]
    rw [hstop]
    exact fitLoop_stopped ⟨maxE, 1, t, true⟩ trainepoch scoreFn _ _ rfl
  refine ⟨?_, ?_, ?_, ?_⟩
  · rw [hfin, hstop]
  · rw [hfin, hstop]
  · rw [hfin, hstop]
  · unfold fit
    rw [hfin, hstop]

theorem claim_C1_witness :
    (fitFinal ⟨10, 1, 1, true⟩ trainTick scoreRise2 0).nepoch = 2 + 1 + 1 ∧
    (fitFinal ⟨10, 1, 1, true⟩ trainTick scoreRise2 0).bestmodel
      = some (modelAt trainTick 0 2) ∧
    (fitFinal ⟨10, 1, 1, true⟩ trainTick scoreRise2 0).bestaccuracy
      = accAt trainTick scoreRise2 0 2 ∧
    fit ⟨10, 1, 1, true⟩ trainTick scoreRise2 0
      = (some (modelAt trainTick 0 2), accAt trainTick scoreRise2 0 2) :=
  claim_C1_amended 10 1 2 trainTick scoreRise2 0 (by decide) (by decide) (by decide)
    (by
      intro k hk1 hk2
      have hk : k = 1 := by omega
      subst hk
      decide)
    (by
      intro k hk1 hk2
      interval_cases k <;> decide)

end SentEval
